import Mathlib

/-!
Verification of the training-loop controller in `train.py` (YOLO-Fastest
training script).  The definitions below are a shallow embedding of the
schedule math and the control flow of `train`:

* `lf` is the cosine learning-rate decay lambda (line 56).
* `interp` is two-point `np.interp` (linear interpolation with clamping).
* `npRound` is round-half-to-even, the rounding used by Python's `round`
  and by `numpy.ndarray.round` (lines 50 and 84).
* `numWarm`, `accWarm`, `TrainP`, `St`, `iterStep`, `epochRun` model the
  per-epoch batch loop: gradient accumulation, the optimizer-update gate,
  and the running-loss update (lines 46-103).  Machine floats are modelled
  by exact rationals, loss vectors by `Fin 4 → ℚ`, and the accumulated
  gradient buffer by the list of iteration indices whose backward pass
  contributed to it since the last `zero_grad`.
* `ParamGroup`, `groupWarmup`, `adamParamGroup` model the per-group warmup
  update (lines 85-88) over the parameter group built by `optim.Adam`
  (line 55); the body guarded by `'momentum' in x` dereferences the
  undefined name `hyp`, modelled as a `NameError` value.
* `TrainCfg`, `runBatches`, `runEpoch`, `runEpochs`, `train` model the
  epoch loop's effect discipline: scheduler cursor, per-epoch scheduler
  step, checkpoint writes (lines 66-116), and propagation of an exception
  raised by the model/loss adapters (lines 91-95).
-/

open Real in
/-- Line 56: `lf = lambda x: (((1 + math.cos(x * math.pi / total_epochs)) / 2) ** 1.0) * 0.8 + 0.2`. -/
noncomputable def lf (total_epochs : ℕ) (x : ℝ) : ℝ :=
  (((1 + Real.cos (x * Real.pi / total_epochs)) / 2) ^ (1 : ℝ)) * 0.8 + 0.2

/-- Two-point `np.interp x [x0, x1] [y0, y1]`: linear interpolation,
clamped to `y0` below `x0` and to `y1` above `x1`. -/
def interp {α : Type} [LinearOrderedField α] (x x0 x1 y0 y1 : α) : α :=
  if x ≤ x0 then y0
  else if x1 ≤ x then y1
  else y0 + (x - x0) * (y1 - y0) / (x1 - x0)

/-- Round half to even, the rounding of Python's `round` and of
`numpy.ndarray.round` (used on lines 50 and 84). -/
def npRound (q : ℚ) : ℤ :=
  if Int.fract q = 1 / 2 then (if ⌊q⌋ % 2 = 0 then ⌊q⌋ else ⌊q⌋ + 1)
  else round q

/-- Line 47: `num_warm = max(3 * batch_per_epoch, 1e3)`. -/
def numWarm (batch_per_epoch : ℕ) : ℕ := max (3 * batch_per_epoch) 1000

/-- Parameters of one training run that the batch loop depends on:
`B` is `batch_per_epoch`, `bs` is `batch_size`, and `l n` is the
`loss_items` vector returned by `compute_loss` at global iteration `n`
(the loss adapter is opaque, so its outputs are a parameter). -/
structure TrainP where
  B : ℕ
  bs : ℕ
  l : ℕ → Fin 4 → ℚ

/-- Line 84: during warmup the accumulation count is
`max(1, np.interp(num_iter, [0, num_warm], [1, nbs / batch_size]).round())`
with `nbs = 64`. -/
def accWarm (p : TrainP) (n : ℕ) : ℤ :=
  max 1 (npRound (interp (n : ℚ) 0 (numWarm p.B : ℚ) 1 (64 / (p.bs : ℚ))))

/-- Mutable state of the batch loop: the current `accumulate` value, the
running mean-loss vector `mloss`, the set of backward passes accumulated
in the gradient buffer since the last `zero_grad` (as the list of their
global iteration indices), and the optimizer steps performed so far (each
recorded with the gradient contributions it consumed). -/
structure St where
  acc : ℤ
  mloss : Fin 4 → ℚ
  grads : List ℕ
  steps : List (ℕ × List ℕ)

/-- Line 50: `accumulate = max(round(nbs / batch_size), 1)`, with empty
loss statistics and gradient buffer. -/
def initSt (p : TrainP) : St :=
  { acc := max (npRound ((64 : ℚ) / (p.bs : ℚ))) 1
    mloss := fun _ => 0
    grads := []
    steps := [] }

/-- Lines 72-74: at each epoch start the loop calls `optimizer.zero_grad()`
and resets `mloss = torch.zeros(4)`. -/
def epochInit (s : St) : St := { s with mloss := fun _ => 0, grads := [] }

/-- One iteration of the inner batch loop (lines 75-103) at `batchId`
within `epoch`: computes `num_iter`, recomputes `accumulate` during warmup
(line 84), accumulates this batch's scaled gradients (line 95), and, when
`num_iter % accumulate == 0`, steps the optimizer, clears the gradient
buffer and folds `loss_items` into `mloss` (lines 98-103). -/
def iterStep (p : TrainP) (epoch : ℕ) (s : St) (batchId : ℕ) : St :=
  let n := batchId + p.B * epoch
  let acc := if n ≤ numWarm p.B then accWarm p n else s.acc
  let grads := s.grads ++ [n]
  if (n : ℤ) % acc = 0 then
    { acc := acc
      mloss := fun i => (s.mloss i * (batchId : ℚ) + p.l n i) / ((batchId : ℚ) + 1)
      grads := []
      steps := s.steps ++ [(n, grads)] }
  else
    { s with acc := acc, grads := grads }

/-- One full epoch of the batch loop: epoch-start resets followed by the
iterations over `batch_id = 0, ..., batch_per_epoch - 1` in loader order. -/
def epochRun (p : TrainP) (epoch : ℕ) (s : St) : St :=
  (List.range p.B).foldl (iterStep p epoch) (epochInit s)

/-- The arithmetic mean of the `loss_items` vectors consumed by the
optimizer-gated updates recorded in `s.steps`. -/
def gatedMean (p : TrainP) (s : St) : Fin 4 → ℚ :=
  fun i => ((s.steps.map fun t => p.l t.1 i).sum) / (s.steps.length : ℚ)

/-- A Python exception escaping the loop: a `NameError` on an undefined
name, or an exception raised inside the model/dataset/loss adapters. -/
inductive PyErr where
  | nameError (missing : String)
  | adapterError (msg : String)
deriving DecidableEq

/-- One optimizer parameter group, as the warmup code (lines 85-88) sees
it: the mutable `lr`, the `initial_lr` recorded by `LambdaLR`, the Adam
`betas` pair, whether the dict has a `'momentum'` key, and that key's
value when present. -/
structure ParamGroup where
  lr : ℝ
  initial_lr : ℝ
  betas : ℝ × ℝ
  hasMomentumKey : Bool
  momentum : ℝ

/-- Lines 85-88, for group index `j`: assigns
`x['lr'] = np.interp(num_iter, [0, num_warm], [0.1 if j == 2 else 0.0,
x['initial_lr'] * lf(epoch)])`; then, if `'momentum' in x`, evaluates
`np.interp(num_iter, xi, [0.9, hyp['momentum']])` — which dereferences
the undefined name `hyp` and raises `NameError`. -/
noncomputable def groupWarmup (W : ℝ) (n epoch E j : ℕ) (x : ParamGroup) :
    Except PyErr ParamGroup :=
  let x1 := { x with
    lr := interp (n : ℝ) 0 W (if j = 2 then 0.1 else 0.0) (x.initial_lr * lf E epoch) }
  if x1.hasMomentumKey then Except.error (PyErr.nameError "hyp") else Except.ok x1

/-- Line 55 with `LambdaLR` (line 57): `optim.Adam(model.parameters(),
lr=lr0, betas=(momentum, 0.999))` builds a single parameter group whose
dict keys are `params`, `lr`, `betas`, `eps`, `weight_decay`, `amsgrad`
(plus `initial_lr` added by the scheduler) — in particular it has no
`'momentum'` key. -/
def adamParamGroup (lr0 m : ℝ) : ParamGroup :=
  { lr := lr0
    initial_lr := lr0
    betas := (m, 0.999)
    hasMomentumKey := false
    momentum := 0 }

/-- Python's `str` on a natural number: its decimal digits. -/
def pyStr (n : ℕ) : String :=
  ⟨if n = 0 then ['0'] else ((Nat.digits 10 n).map Nat.digitChar).reverse⟩

/-- Line 115: `save_path + "/epoch_" + str(epoch) + '.pt'`. -/
def ckptPath (save_path : String) (epoch : ℕ) : String :=
  save_path ++ "/epoch_" ++ pyStr epoch ++ ".pt"

/-- The checkpoint dict of lines 112-114: epoch index, model state, and
optimizer state — the latter stored as `None` (absent) when
`epoch + 1 == total_epochs`.  Model and optimizer states are opaque blobs,
modelled as natural-number tokens. -/
structure Checkpoint where
  epoch : ℕ
  model : ℕ
  optimizer : Option ℕ
deriving DecidableEq

/-- Observable events of the epoch loop: the one manual assignment to
`scheduler.last_epoch` (line 67), a `scheduler.step()` call (line 109),
one inner-loop iteration's forward/backward work (lines 75-105), and a
`torch.save` call (line 115). -/
inductive Ev where
  | cursorSet (v : ℤ)
  | schedStep
  | batchRun (epoch batchId : ℕ)
  | save (path : String) (c : Checkpoint)
deriving DecidableEq

def isCursorSet : Ev → Bool
  | Ev.cursorSet _ => true
  | _ => false

def isSchedStep : Ev → Bool
  | Ev.schedStep => true
  | _ => false

/-- State threaded through the epoch loop: the scheduler's `last_epoch`
cursor, the checkpoint files written so far, and the event log. -/
structure RunSt where
  lastEpoch : ℤ
  writes : List (String × Checkpoint)
  events : List Ev
deriving DecidableEq

/-- Configuration of a run of `train`: `batch_per_epoch`, `total_epochs`,
`save_path`, the adapters' behaviour per `(epoch, batch_id)` (`Except.ok`
when the forward pass and `compute_loss` return, `Except.error` when one
of them raises), and the opaque model/optimizer state blobs at the end of
each epoch. -/
structure TrainCfg where
  B : ℕ
  total_epochs : ℕ
  save_path : String
  batch : ℕ → ℕ → Except PyErr Unit
  modelSt : ℕ → ℕ
  optSt : ℕ → ℕ

/-- The checkpoint dict built for `epoch` (lines 112-114). -/
def ckptOf (c : TrainCfg) (e : ℕ) : Checkpoint :=
  { epoch := e
    model := c.modelSt e
    optimizer := if e + 1 = c.total_epochs then none else some (c.optSt e) }

/-- Runs the listed batches of epoch `e` in order.  Each batch runs the
adapters (lines 91-95); the loop body has no try/except, so the first
exception stops the iteration and is returned. -/
def runBatches (c : TrainCfg) (e : ℕ) : List ℕ → List Ev × Option PyErr
  | [] => ([], none)
  | b :: bs =>
    match c.batch e b with
    | Except.error er => ([Ev.batchRun e b], some er)
    | Except.ok _ =>
      let r := runBatches c e bs
      (Ev.batchRun e b :: r.1, r.2)

/-- One iteration of the epoch loop (lines 70-116): run the batch loop; if
an adapter raised, the exception propagates past the epoch tail.  Otherwise
`scheduler.step()` advances `last_epoch` by one and the epoch's checkpoint
is written to `ckptPath save_path e`. -/
def runEpoch (c : TrainCfg) (s : RunSt) (e : ℕ) : RunSt × Option PyErr :=
  let r := runBatches c e (List.range c.B)
  match r.2 with
  | some er => ({ s with events := s.events ++ r.1 }, some er)
  | none =>
    ({ lastEpoch := s.lastEpoch + 1
       writes := s.writes ++ [(ckptPath c.save_path e, ckptOf c e)]
       events := s.events ++ r.1 ++
         [Ev.schedStep, Ev.save (ckptPath c.save_path e) (ckptOf c e)] }, none)

/-- The epoch loop over a list of epoch indices; an exception escaping one
epoch aborts the remaining epochs. -/
def runEpochs (c : TrainCfg) : List ℕ → RunSt → RunSt × Option PyErr
  | [], s => (s, none)
  | e :: es, s =>
    match runEpoch c s e with
    | (s1, some er) => (s1, some er)
    | (s1, none) => runEpochs c es s1

/-- Lines 66-67: `start_epoch = 0; scheduler.last_epoch = start_epoch - 1`
— the single assignment to the scheduler cursor, before the epoch loop. -/
def initRun : RunSt :=
  { lastEpoch := 0 - 1, writes := [], events := [Ev.cursorSet (0 - 1)] }

/-- The whole epoch loop of `train` (line 70):
`for epoch in range(start_epoch, total_epochs)` with `start_epoch = 0`. -/
def train (c : TrainCfg) : RunSt × Option PyErr :=
  runEpochs c (List.range c.total_epochs) initRun

/-- Line 76: `num_iter = batch_id + batch_per_epoch * epoch`. -/
def numIter (p : TrainP) (epoch batchId : ℕ) : ℕ := batchId + p.B * epoch

/-- The `accumulate` value in effect at the optimizer-update gate of the
iteration `(epoch, batchId)` started from state `s`: recomputed by line 84
during warmup, otherwise the value carried in `s`. -/
def gateAcc (p : TrainP) (epoch batchId : ℕ) (s : St) : ℤ :=
  if numIter p epoch batchId ≤ numWarm p.B then accWarm p (numIter p epoch batchId)
  else s.acc

/-- The events one exception-free epoch contributes to the log: its `B`
batch iterations in order, then the `scheduler.step()` and the checkpoint
write. -/
def epochEvents (c : TrainCfg) (e : ℕ) : List Ev :=
  (List.range c.B).map (Ev.batchRun e) ++
    [Ev.schedStep, Ev.save (ckptPath c.save_path e) (ckptOf c e)]

/-- Concrete run parameters exercising both gate outcomes:
`batch_size = 1` makes `accumulate` reach 2 at iteration 8, so iteration 9
is skipped by the gate. -/
def cfgGate : TrainP := ⟨10, 1, fun _ _ => 0⟩

/-- Concrete run parameters for the first-iteration claim. -/
def cfgFirst : TrainP := ⟨2, 32, fun n _ => (n : ℚ) + 1⟩

/-- Concrete run parameters refuting the gated-mean claim: with
`batch_size = 1`, `accumulate` reaches 2 at iteration 8, iteration 9 is
skipped, and the gated update at batch 10 divides by `batch_id + 1 = 11`
although only 10 gated updates happened. -/
def cfgMean : TrainP := ⟨11, 1, fun n _ => if n = 10 then 11 else 0⟩

/-- Concrete run parameters for the running-mean update witness. -/
def cfgMeanWit : TrainP := ⟨3, 32, fun n _ => (n : ℚ)⟩

/-- Concrete run parameters with `batch_size = 128 > nbs = 64`:
`round(64 / 128)` is `0` under round-half-to-even, while the `max( ,1)`
guards keep the actual accumulation count at `1`. -/
def cfgAccCex : TrainP := ⟨10, 128, fun _ _ => 0⟩

/-- Concrete run parameters for the accumulation-schedule witness. -/
def cfgAcc : TrainP := ⟨10, 32, fun _ _ => 0⟩

/-- A run configuration whose adapters never raise, with one epoch. -/
def cfgCkpt : TrainCfg := ⟨2, 1, "output", fun _ _ => Except.ok (), fun _ => 7, fun _ => 9⟩

/-- A run configuration whose loss adapter raises on batch 3 of epoch 0. -/
def cfgAbort : TrainCfg :=
  ⟨5, 2, "output",
   fun e b => if e = 0 ∧ b = 3 then Except.error (PyErr.adapterError "loss") else Except.ok (),
   fun _ => 7, fun _ => 9⟩

/-- A two-epoch run configuration whose adapters never raise. -/
def cfgSched : TrainCfg := ⟨2, 2, "output", fun _ _ => Except.ok (), fun _ => 7, fun _ => 9⟩

/-! ## Schedule math: the cosine decay factor -/

theorem lf_zero (E : ℕ) : lf E 0 = 1 := by
  norm_num [lf, Real.cos_zero, Real.rpow_one]

theorem lf_total (E : ℕ) (hE : 0 < E) : lf E E = 0.2 := by
  have hE0 : (E : ℝ) ≠ 0 := Nat.cast_ne_zero.mpr hE.ne'
  have h : (E : ℝ) * Real.pi / E = Real.pi := by field_simp
  rw [lf, h, Real.cos_pi]
  norm_num [Real.rpow_one]

theorem lf_antitone (E : ℕ) (hE : 0 < E) {x y : ℝ} (hx : 0 ≤ x) (hxy : x ≤ y)
    (hyE : y ≤ E) : lf E y ≤ lf E x := by
  have hEpos : (0 : ℝ) < E := by exact_mod_cast hE
  have hpi := Real.pi_pos
  have h1 : 0 ≤ x * Real.pi / E := by positivity
  have h3 : x * Real.pi / E ≤ y * Real.pi / E := by gcongr
  have h2 : y * Real.pi / E ≤ Real.pi := by
    rw [div_le_iff₀ hEpos]
    nlinarith
  have hc := Real.cos_le_cos_of_nonneg_of_le_pi h1 h2 h3
  unfold lf
  rw [Real.rpow_one, Real.rpow_one]
  linarith

/-- C1: the decay factor `lf` satisfies `lf 0 * base = base` and
`lf total_epochs * base = 0.2 * base` for every `total_epochs > 0`, and
`epoch ↦ lf epoch * base` is monotonically non-increasing on
`[0, total_epochs]` — amended: the monotone part additionally requires a
non-negative base rate (the endpoint identities hold for every base). -/
theorem lfScheduleCorrect (E : ℕ) (base x y : ℝ) (hE : 0 < E) :
    lf E 0 * base = base ∧ lf E E * base = 0.2 * base ∧
    (0 ≤ base → 0 ≤ x → x ≤ y → y ≤ (E : ℝ) → lf E y * base ≤ lf E x * base) :=
  ⟨by rw [lf_zero]; ring,
   by rw [lf_total E hE],
   fun hbase hx hxy hyE => mul_le_mul_of_nonneg_right (lf_antitone E hE hx hxy hyE) hbase⟩

/-- C1 counterexample: for base rate `-1` (the claim quantifies over every
base rate) and `total_epochs = 1`, the scheduled rate increases from
epoch 0 to epoch 1, so `epoch ↦ lf epoch * base` is not monotonically
non-increasing as stated. -/
theorem lfScheduleNegativeBaseCex : ¬ (lf 1 1 * (-1) ≤ lf 1 0 * (-1)) := by
  have h2 := lf_total 1 one_pos
  push_cast at h2
  rw [h2, lf_zero]
  norm_num

/-- Witness for C1 at `total_epochs = 2`, `base = 1`, epochs `0 ≤ 1 ≤ 2`. -/
theorem lfScheduleCorrectWitness :
    lf 2 0 * 1 = 1 ∧ lf 2 ((2 : ℕ) : ℝ) * 1 = 0.2 * 1 ∧ lf 2 1 * 1 ≤ lf 2 0 * 1 := by
  obtain ⟨h1, h2, h3⟩ := lfScheduleCorrect 2 1 0 1 (by norm_num)
  exact ⟨h1, h2, h3 zero_le_one le_rfl zero_le_one (by norm_num)⟩

/-! ## Warmup updates of the optimizer parameter groups -/

/-- C9: for the parameter group built by `optim.Adam` the guard
`'momentum' in x` is always false, so the momentum-warmup body (which
would raise `NameError` on the undefined name `hyp`) never executes; the
warmup update returns normally with only `lr` reassigned, and the Adam
betas stay `(momentum, 0.999)`. -/
theorem adamMomentumBranchUnreachable (lr0 m W : ℝ) (n epoch E j : ℕ) :
    groupWarmup W n epoch E j (adamParamGroup lr0 m) =
      Except.ok { adamParamGroup lr0 m with
        lr := interp (n : ℝ) 0 W (if j = 2 then 0.1 else 0.0) (lr0 * lf E epoch) } ∧
    (groupWarmup W n epoch E j (adamParamGroup lr0 m)).toOption.map ParamGroup.betas
      = some (m, 0.999) ∧
    ∀ x : ParamGroup, x.hasMomentumKey = true →
      groupWarmup W n epoch E j x = Except.error (PyErr.nameError "hyp") := by
  refine ⟨rfl, rfl, fun x hx => ?_⟩
  simp [groupWarmup, hx]

/-- Witness for C9 at concrete inputs: the Adam group passes through the
update un-errored with its betas intact, while a group that does carry a
`'momentum'` key would hit the `NameError`. -/
theorem adamMomentumBranchUnreachableWitness :
    (groupWarmup 1000 0 0 100 0 (adamParamGroup 0.01 0.937)).toOption.map ParamGroup.betas
      = some (0.937, 0.999) ∧
    groupWarmup 1000 0 0 100 0 ⟨0, 0, (0, 0), true, 0⟩ =
      Except.error (PyErr.nameError "hyp") := by
  obtain ⟨_h1, h2, h3⟩ := adamMomentumBranchUnreachable 0.01 0.937 1000 0 0 100 0
  exact ⟨h2, h3 ⟨0, 0, (0, 0), true, 0⟩ rfl⟩

/-- C5 amended: on every warmup iteration each parameter group's learning
rate is linearly interpolated from the cold-start value (0 in general, 0.1
for group index 2) up to `initial_lr * lf(current epoch)`; momentum is
interpolated for no group, because the update only touches groups carrying
a `'momentum'` key and the Adam groups of this run carry none — their
betas are left untouched. -/
theorem warmupGroupUpdate (W : ℝ) (n epoch E j : ℕ) (x : ParamGroup)
    (h : x.hasMomentumKey = false) :
    groupWarmup W n epoch E j x =
      Except.ok { x with
        lr := interp (n : ℝ) 0 W (if j = 2 then 0.1 else 0.0)
          (x.initial_lr * lf E epoch) } := by
  simp [groupWarmup, h]

/-- Witness for C5 (amended) on the Adam group at `num_iter = 0`. -/
theorem warmupGroupUpdateWitness :
    groupWarmup 1000 0 0 100 0 (adamParamGroup 0.01 0.937) =
      Except.ok { adamParamGroup 0.01 0.937 with
        lr := interp ((0 : ℕ) : ℝ) 0 1000 (if (0 : ℕ) = 2 then 0.1 else 0.0)
          ((adamParamGroup 0.01 0.937).initial_lr * lf 100 ((0 : ℕ) : ℝ)) } :=
  warmupGroupUpdate 1000 0 0 100 0 (adamParamGroup 0.01 0.937) rfl

/-- C5 counterexample: at warmup iteration 0 the claim's momentum
interpolation would give `interp(0, [0, 1000], [0.9, 0.937]) = 0.9`, but
the code leaves the group's momentum term (the Adam beta1) at `0.937` —
momentum is not interpolated at all. -/
theorem momentumNotInterpolatedCex :
    (groupWarmup 1000 0 0 100 0 (adamParamGroup 0.01 0.937)).toOption.map
        (fun g => g.betas.1) = some 0.937 ∧
    interp (0 : ℝ) 0 1000 0.9 0.937 = 0.9 ∧
    (0.937 : ℝ) ≠ 0.9 := by
  refine ⟨rfl, by simp [interp], by norm_num⟩

/-! ## Round-half-to-even and interpolation facts -/

theorem npRound_ge_floor (q : ℚ) : ⌊q⌋ ≤ npRound q := by
  unfold npRound
  split_ifs with h1 h2
  · exact le_refl _
  · exact le_of_lt (lt_add_one _)
  · rw [round_eq]
    exact Int.floor_mono (by linarith)

theorem npRound_le_floor_add_one (q : ℚ) : npRound q ≤ ⌊q⌋ + 1 := by
  unfold npRound
  split_ifs with h1 h2
  · exact le_of_lt (lt_add_one _)
  · exact le_refl _
  · rw [round_eq]
    have hq := Int.lt_floor_add_one q
    have h3 : ⌊q + 1 / 2⌋ < ⌊q⌋ + 2 := Int.floor_lt.mpr (by push_cast; linarith)
    omega

theorem npRound_mono {x y : ℚ} (hxy : x ≤ y) : npRound x ≤ npRound y := by
  rcases lt_or_le ⌊x⌋ ⌊y⌋ with hf | hf
  · have h1 := npRound_le_floor_add_one x
    have h2 := npRound_ge_floor y
    omega
  · have hfe : ⌊x⌋ = ⌊y⌋ := le_antisymm (Int.floor_mono hxy) hf
    have hfr : Int.fract x ≤ Int.fract y := by
      unfold Int.fract
      rw [hfe]
      linarith
    by_cases h1 : Int.fract x = 1 / 2 <;> by_cases h3 : Int.fract y = 1 / 2
    · simp only [npRound, if_pos h1, if_pos h3]
      split_ifs <;> omega
    · have hlt : (1 : ℚ) / 2 < Int.fract y := lt_of_le_of_ne (h1 ▸ hfr) (Ne.symm h3)
      have hry : ⌊y⌋ + 1 ≤ round y := by
        rw [round_eq]
        apply Int.le_floor.mpr
        have hy := Int.floor_add_fract y
        push_cast
        linarith
      simp only [npRound, if_pos h1, if_neg h3]
      split_ifs <;> omega
    · have hlt : Int.fract x < 1 / 2 := lt_of_le_of_ne (h3 ▸ hfr) h1
      have hrx : round x ≤ ⌊x⌋ := by
        rw [round_eq]
        have hx := Int.floor_add_fract x
        have h4 : ⌊x + 1 / 2⌋ < ⌊x⌋ + 1 := Int.floor_lt.mpr (by push_cast; linarith)
        omega
      simp only [npRound, if_neg h1, if_pos h3]
      split_ifs <;> omega
    · simp only [npRound, if_neg h1, if_neg h3, round_eq]
      exact Int.floor_mono (by linarith)

theorem npRound_one : npRound 1 = 1 := by with_unfolding_all decide

theorem interp_right {α : Type} [LinearOrderedField α] {x0 x1 : α} (y0 y1 : α)
    (h : x0 < x1) : interp x1 x0 x1 y0 y1 = y1 := by
  simp [interp, h.not_le]

theorem interp_mono {α : Type} [LinearOrderedField α] {x0 x1 y0 y1 a b : α}
    (hx : x0 < x1) (hy : y0 ≤ y1) (hab : a ≤ b) :
    interp a x0 x1 y0 y1 ≤ interp b x0 x1 y0 y1 := by
  have hD : (0 : α) < x1 - x0 := sub_pos.mpr hx
  have ht : (0 : α) ≤ (y1 - y0) / (x1 - x0) := div_nonneg (sub_nonneg.mpr hy) hD.le
  by_cases hb0 : b ≤ x0
  · have ha0 : a ≤ x0 := le_trans hab hb0
    simp [interp, ha0, hb0]
  · by_cases hb1 : x1 ≤ b
    · have hrb : interp b x0 x1 y0 y1 = y1 := by simp [interp, hb0, hb1]
      rw [hrb]
      unfold interp
      split_ifs with h1 h2
      · exact hy
      · exact le_refl _
      · rw [mul_div_assoc]
        have h4 : (a - x0) * ((y1 - y0) / (x1 - x0)) ≤ (x1 - x0) * ((y1 - y0) / (x1 - x0)) :=
          mul_le_mul_of_nonneg_right (by linarith [not_le.mp h2]) ht
        have h5 : (x1 - x0) * ((y1 - y0) / (x1 - x0)) = y1 - y0 := mul_div_cancel₀ _ hD.ne'
        linarith
    · have hrb : interp b x0 x1 y0 y1 = y0 + (b - x0) * (y1 - y0) / (x1 - x0) := by
        simp [interp, hb0, hb1]
      rw [hrb]
      by_cases ha0 : a ≤ x0
      · have hla : interp a x0 x1 y0 y1 = y0 := by simp [interp, ha0]
        rw [hla, mul_div_assoc]
        have h6 : 0 ≤ (b - x0) * ((y1 - y0) / (x1 - x0)) :=
          mul_nonneg (by linarith [not_le.mp hb0]) ht
        linarith
      · have ha1 : ¬ x1 ≤ a := fun h => hb1 (le_trans h hab)
        have hla : interp a x0 x1 y0 y1 = y0 + (a - x0) * (y1 - y0) / (x1 - x0) := by
          simp [interp, ha0, ha1]
        rw [hla, mul_div_assoc, mul_div_assoc]
        have h7 := mul_le_mul_of_nonneg_right (sub_le_sub_right hab x0) ht
        linarith

theorem interp_le_left {α : Type} [LinearOrderedField α] {x0 x1 y0 y1 : α} (hx : x0 < x1)
    (hy : y1 ≤ y0) (x : α) : interp x x0 x1 y0 y1 ≤ y0 := by
  have hD : (0 : α) < x1 - x0 := sub_pos.mpr hx
  unfold interp
  split_ifs with h1 h2
  · exact le_refl _
  · exact hy
  · have h8 : (x - x0) * (y1 - y0) ≤ 0 := by
      nlinarith [not_le.mp h1]
    have h9 : (x - x0) * (y1 - y0) / (x1 - x0) ≤ 0 :=
      div_nonpos_iff.mpr (Or.inr ⟨h8, hD.le⟩)
    linarith

/-! ## The accumulation schedule -/

theorem numWarm_cast_pos (B : ℕ) : (0 : ℚ) < (numWarm B : ℚ) := by
  have h : (1000 : ℕ) ≤ numWarm B := le_max_right _ _
  exact_mod_cast lt_of_lt_of_le (by norm_num) h

theorem accWarm_one_le (p : TrainP) (n : ℕ) : 1 ≤ accWarm p n := le_max_left _ _

theorem accWarm_zero (p : TrainP) : accWarm p 0 = 1 := by
  have h : interp ((0 : ℕ) : ℚ) 0 (numWarm p.B : ℚ) 1 (64 / (p.bs : ℚ)) = 1 := by
    norm_num [interp]
  unfold accWarm
  rw [h, npRound_one, max_self]

theorem accWarm_top (p : TrainP) :
    accWarm p (numWarm p.B) = max 1 (npRound ((64 : ℚ) / (p.bs : ℚ))) := by
  unfold accWarm
  rw [interp_right _ _ (numWarm_cast_pos p.B)]

theorem accWarm_eq_one (p : TrainP) (h : (64 : ℚ) / (p.bs : ℚ) ≤ 1) (n : ℕ) :
    accWarm p n = 1 := by
  have hle : interp ((n : ℕ) : ℚ) 0 (numWarm p.B : ℚ) 1 (64 / (p.bs : ℚ)) ≤ 1 :=
    interp_le_left (numWarm_cast_pos p.B) h _
  unfold accWarm
  rw [max_eq_left]
  calc npRound (interp ((n : ℕ) : ℚ) 0 (numWarm p.B : ℚ) 1 (64 / (p.bs : ℚ)))
      ≤ npRound 1 := npRound_mono hle
    _ = 1 := npRound_one

theorem accWarm_mono (p : TrainP) {n m : ℕ} (hnm : n ≤ m) : accWarm p n ≤ accWarm p m := by
  rcases le_or_lt ((64 : ℚ) / (p.bs : ℚ)) 1 with hr | hr
  · rw [accWarm_eq_one p hr n, accWarm_eq_one p hr m]
  · unfold accWarm
    exact max_le_max (le_refl 1)
      (npRound_mono (interp_mono (numWarm_cast_pos p.B) hr.le (by exact_mod_cast hnm)))

/-! ## The optimizer-update gate -/

theorem iterStep_eq (p : TrainP) (epoch b : ℕ) (s : St) :
    iterStep p epoch s b =
      if (numIter p epoch b : ℤ) % gateAcc p epoch b s = 0 then
        { acc := gateAcc p epoch b s
          mloss := fun i => (s.mloss i * (b : ℚ) + p.l (numIter p epoch b) i) / ((b : ℚ) + 1)
          grads := []
          steps := s.steps ++ [(numIter p epoch b, s.grads ++ [numIter p epoch b])] }
      else { s with acc := gateAcc p epoch b s, grads := s.grads ++ [numIter p epoch b] } :=
  rfl

theorem iterStep_acc (p : TrainP) (epoch : ℕ) (s : St) (b : ℕ) :
    (iterStep p epoch s b).acc = gateAcc p epoch b s := by
  rw [iterStep_eq]
  split <;> rfl

/-- C3 (amended): the accumulation count is an integer that is always at
least 1; during warmup (`num_iter ≤ num_warm`) it is non-decreasing in the
global step and follows the rounded linear interpolation, starting at 1
and reaching `max 1 (round(nbs / batch_size))` at `num_iter = num_warm`;
past warmup an iteration leaves it unchanged, so it stays constant at
`max 1 (round(nbs / batch_size))` — the bare `round(nbs / batch_size)` of
the original claim is wrong when `batch_size` is large enough to make the
rounded ratio 0. -/
theorem accumulationStepsBehavior (p : TrainP) (n m epoch b : ℕ) (s : St) :
    1 ≤ accWarm p n ∧
    1 ≤ (initSt p).acc ∧
    (n ≤ m → accWarm p n ≤ accWarm p m) ∧
    accWarm p 0 = 1 ∧
    accWarm p (numWarm p.B) = max 1 (npRound ((64 : ℚ) / (p.bs : ℚ))) ∧
    (numIter p epoch b ≤ numWarm p.B →
      (iterStep p epoch s b).acc = accWarm p (numIter p epoch b)) ∧
    (numWarm p.B < numIter p epoch b → (iterStep p epoch s b).acc = s.acc) := by
  refine ⟨accWarm_one_le p n, le_max_right _ _, fun h => accWarm_mono p h,
    accWarm_zero p, accWarm_top p, fun h => ?_, fun h => ?_⟩
  · rw [iterStep_acc]
    unfold gateAcc
    rw [if_pos h]
  · rw [iterStep_acc]
    unfold gateAcc
    rw [if_neg (not_le.mpr h)]

/-- C3 counterexample: with `batch_size = 128` (and `nbs = 64`),
`round(nbs / batch_size) = round(1/2) = 0` under round-half-to-even, yet
at the post-warmup iteration `num_iter = 1010` the accumulation count in
effect is `1`, not `round(nbs / batch_size)` — the claimed steady-state
value contradicts the (correct) `≥ 1` guarantee. -/
theorem accumulationRoundCex :
    npRound ((64 : ℚ) / ((128 : ℕ) : ℚ)) = 0 ∧
    numWarm cfgAccCex.B < numIter cfgAccCex 101 0 ∧
    (iterStep cfgAccCex 101 (initSt cfgAccCex) 0).acc = 1 ∧
    ¬ (iterStep cfgAccCex 101 (initSt cfgAccCex) 0).acc
        = npRound ((64 : ℚ) / (cfgAccCex.bs : ℚ)) := by
  with_unfolding_all decide

/-- Witness for C3 (amended) at `batch_size = 32`, warmup steps 3 ≤ 5 and
the in-warmup iteration `(epoch, batch) = (0, 2)`. -/
theorem accumulationStepsBehaviorWitness :
    1 ≤ accWarm cfgAcc 3 ∧ accWarm cfgAcc 3 ≤ accWarm cfgAcc 5 ∧
    accWarm cfgAcc 0 = 1 ∧
    (iterStep cfgAcc 0 (initSt cfgAcc) 2).acc = accWarm cfgAcc 2 := by
  obtain ⟨h1, _h2, h3, h4, _h5, h6, _h7⟩ :=
    accumulationStepsBehavior cfgAcc 3 5 0 2 (initSt cfgAcc)
  exact ⟨h1, h3 (by decide), h4, h6 (by decide)⟩

/-- C4: on every batch iteration an optimizer step (with gradient
clearing) occurs iff `num_iter % accumulate == 0` for the `accumulate`
value in effect at the gate; a non-firing iteration leaves the previously
accumulated gradients in place (merely adding its own backward pass), and
the gradient buffer is cleared exactly at an optimizer step or at epoch
start (`optimizer.zero_grad()`). -/
theorem optimizerGateIff (p : TrainP) (epoch b : ℕ) (s : St) :
    (((numIter p epoch b : ℤ) % gateAcc p epoch b s = 0) →
      (iterStep p epoch s b).steps
          = s.steps ++ [(numIter p epoch b, s.grads ++ [numIter p epoch b])] ∧
      (iterStep p epoch s b).grads = []) ∧
    (¬ ((numIter p epoch b : ℤ) % gateAcc p epoch b s = 0) →
      (iterStep p epoch s b).steps = s.steps ∧
      (iterStep p epoch s b).grads = s.grads ++ [numIter p epoch b]) ∧
    (epochInit s).grads = [] ∧
    epochRun p epoch s = (List.range p.B).foldl (iterStep p epoch) (epochInit s) := by
  refine ⟨fun h => ?_, fun h => ?_, rfl, rfl⟩
  · rw [iterStep_eq, if_pos h]
    exact ⟨rfl, rfl⟩
  · rw [iterStep_eq, if_neg h]
    exact ⟨rfl, rfl⟩

/-- Witness for C4: with `batch_size = 1` the gate fires at iteration 0
(accumulate 1) and skips iteration 9 (accumulate 2), keeping its gradient
accumulated. -/
theorem optimizerGateIffWitness :
    (iterStep cfgGate 0 (initSt cfgGate) 0).steps = [(0, [0])] ∧
    (iterStep cfgGate 0 (initSt cfgGate) 9).steps = [] ∧
    (iterStep cfgGate 0 (initSt cfgGate) 9).grads = [9] := by
  obtain ⟨hg, _, _, _⟩ := optimizerGateIff cfgGate 0 0 (initSt cfgGate)
  obtain ⟨_, hn, _, _⟩ := optimizerGateIff cfgGate 0 9 (initSt cfgGate)
  have h1 := hg (by with_unfolding_all decide)
  have h2 := hn (by with_unfolding_all decide)
  refine ⟨?_, ?_, ?_⟩
  · rw [h1.1]; rfl
  · rw [h2.1]; rfl
  · rw [h2.2]; rfl

/-- C2 (amended): a gated update folds the loss vector in as
`mloss = (mloss * batch_id + loss_items) / (batch_id + 1)` where
`batch_id` is the index of the current batch within the epoch — not the
count of previous gated updates — a non-gated iteration leaves `mloss`
unchanged, and the vector is reset to zero at each epoch start; hence the
vector equals the arithmetic mean of the gated loss vectors only when the
gate has fired on every batch of the epoch so far. -/
theorem runningMeanUsesBatchIndex (p : TrainP) (epoch b : ℕ) (s : St) :
    ((numIter p epoch b : ℤ) % gateAcc p epoch b s = 0 →
      (iterStep p epoch s b).mloss
        = fun i => (s.mloss i * (b : ℚ) + p.l (numIter p epoch b) i) / ((b : ℚ) + 1)) ∧
    (¬ ((numIter p epoch b : ℤ) % gateAcc p epoch b s = 0) →
      (iterStep p epoch s b).mloss = s.mloss) ∧
    (epochInit s).mloss = fun _ => 0 := by
  refine ⟨fun h => ?_, fun h => ?_, rfl⟩
  · rw [iterStep_eq, if_pos h]
  · rw [iterStep_eq, if_neg h]

/-- C2 counterexample: an 11-batch epoch with `batch_size = 1`.  The
accumulate count reaches 2 at iteration 8, iteration 9 is skipped by the
gate, and the gated update at batch 10 divides by `batch_id + 1 = 11`
although only `k = 10` gated updates occurred; the resulting running-loss
vector (constantly 1) differs from the arithmetic mean of the 10 gated
loss vectors (constantly 11/10). -/
theorem runningMeanNotGatedMeanCex :
    (epochRun cfgMean 0 (initSt cfgMean)).steps.length = 10 ∧
    ¬ ((epochRun cfgMean 0 (initSt cfgMean)).mloss
        = gatedMean cfgMean (epochRun cfgMean 0 (initSt cfgMean))) := by
  with_unfolding_all decide

/-- Witness for C2 (amended): the gated update at batch 0 of
`cfgMeanWit`. -/
theorem runningMeanUsesBatchIndexWitness :
    (iterStep cfgMeanWit 0 (initSt cfgMeanWit) 0).mloss
      = fun i => ((initSt cfgMeanWit).mloss i * ((0 : ℕ) : ℚ)
          + cfgMeanWit.l (numIter cfgMeanWit 0 0) i) / (((0 : ℕ) : ℚ) + 1) := by
  obtain ⟨hg, _, _⟩ := runningMeanUsesBatchIndex cfgMeanWit 0 0 (initSt cfgMeanWit)
  exact hg (by with_unfolding_all decide)

/-- C10: the optimizer-update gate fires on the very first batch of the
run (`num_iter = 0`, and `0 % accumulate = 0` whatever `accumulate` is):
the first iteration of epoch 0 performs an optimizer step consuming
exactly the first batch's gradient, and immediately afterwards the
running-loss vector equals that batch's `loss_items` vector. -/
theorem firstIterationGated (p : TrainP) (s0 : St) (hB : 1 ≤ p.B) :
    epochRun p 0 s0
      = (List.range' 1 (p.B - 1)).foldl (iterStep p 0) (iterStep p 0 (epochInit s0) 0) ∧
    (iterStep p 0 (epochInit (initSt p)) 0).steps = [(0, [0])] ∧
    (iterStep p 0 (epochInit (initSt p)) 0).mloss = p.l 0 := by
  have hn : numIter p 0 0 = 0 := by simp [numIter]
  have hg : (numIter p 0 0 : ℤ) % gateAcc p 0 0 (epochInit (initSt p)) = 0 := by
    simp [hn]
  refine ⟨?_, ?_, ?_⟩
  · unfold epochRun
    obtain ⟨k, hk⟩ := Nat.exists_eq_add_of_le hB
    rw [hk, Nat.add_comm 1 k, List.range_eq_range', List.range'_succ, List.foldl_cons,
      Nat.add_sub_cancel]
  · rw [iterStep_eq, if_pos hg]
    rfl
  · rw [iterStep_eq, if_pos hg]
    funext i
    show ((0 : ℚ) * ((0 : ℕ) : ℚ) + p.l (numIter p 0 0) i) / (((0 : ℕ) : ℚ) + 1) = p.l 0 i
    rw [hn]
    norm_num

/-- Witness for C10 at a concrete two-batch run. -/
theorem firstIterationGatedWitness :
    (iterStep cfgFirst 0 (epochInit (initSt cfgFirst)) 0).steps = [(0, [0])] ∧
    (iterStep cfgFirst 0 (epochInit (initSt cfgFirst)) 0).mloss = cfgFirst.l 0 := by
  obtain ⟨_, h2, h3⟩ := firstIterationGated cfgFirst (initSt cfgFirst) (by decide)
  exact ⟨h2, h3⟩

/-! ## Decimal rendering and checkpoint paths -/

theorem digitChar_injOn :
    ∀ a, a < 10 → ∀ b, b < 10 → Nat.digitChar a = Nat.digitChar b → a = b := by decide

theorem digitChar_eq_zero : ∀ d, d < 10 → Nat.digitChar d = '0' → d = 0 := by decide

theorem map_digitChar_inj :
    ∀ l1 l2 : List ℕ, (∀ x ∈ l1, x < 10) → (∀ x ∈ l2, x < 10) →
      l1.map Nat.digitChar = l2.map Nat.digitChar → l1 = l2 := by
  intro l1
  induction l1 with
  | nil =>
    intro l2 _ _ h
    cases l2 with
    | nil => rfl
    | cons b t => simp at h
  | cons a t ih =>
    intro l2 h1 h2 h
    cases l2 with
    | nil => simp at h
    | cons b t2 =>
      simp only [List.map_cons, List.cons.injEq] at h
      have hab : a = b :=
        digitChar_injOn a (h1 a (List.mem_cons_self a t)) b (h2 b (List.mem_cons_self b t2)) h.1
      rw [hab, ih t2 (fun x hx => h1 x (List.mem_cons_of_mem a hx))
        (fun x hx => h2 x (List.mem_cons_of_mem b hx)) h.2]

theorem pyStr_data_ne {b : ℕ} (hb : b ≠ 0) :
    ((Nat.digits 10 b).map Nat.digitChar).reverse ≠ ['0'] := by
  intro hmap0
  have hmap : (Nat.digits 10 b).map Nat.digitChar = ['0'] := by
    have h := congrArg List.reverse hmap0
    simpa using h
  rcases hdig : Nat.digits 10 b with _ | ⟨d, t⟩
  · rw [hdig] at hmap
    simp at hmap
  · rw [hdig] at hmap
    simp only [List.map_cons, List.cons.injEq] at hmap
    have ht : t = [] := List.map_eq_nil_iff.mp hmap.2
    have hd10 : d < 10 :=
      Nat.digits_lt_base (by norm_num) (by rw [hdig]; exact List.mem_cons_self d t)
    have hd0 : d = 0 := digitChar_eq_zero d hd10 hmap.1
    have hb1 := Nat.ofDigits_digits 10 b
    rw [hdig, ht, hd0] at hb1
    exact hb (by simpa [Nat.ofDigits] using hb1.symm)

theorem pyStr_injective : Function.Injective pyStr := by
  intro a b h
  have hd : (if a = 0 then ['0'] else ((Nat.digits 10 a).map Nat.digitChar).reverse)
      = (if b = 0 then ['0'] else ((Nat.digits 10 b).map Nat.digitChar).reverse) :=
    congrArg String.data h
  by_cases ha : a = 0 <;> by_cases hb : b = 0
  · rw [ha, hb]
  · rw [if_pos ha, if_neg hb] at hd
    exact absurd hd.symm (pyStr_data_ne hb)
  · rw [if_neg ha, if_pos hb] at hd
    exact absurd hd (pyStr_data_ne ha)
  · rw [if_neg ha, if_neg hb] at hd
    have hrev := congrArg List.reverse hd
    simp only [List.reverse_reverse] at hrev
    have hdig := map_digitChar_inj _ _
      (fun x hx => Nat.digits_lt_base (by norm_num) hx)
      (fun x hx => Nat.digits_lt_base (by norm_num) hx) hrev
    have h2 := congrArg (Nat.ofDigits 10) hdig
    rwa [Nat.ofDigits_digits, Nat.ofDigits_digits] at h2

theorem ckptPath_injOn (sp : String) {e e1 : ℕ} (h : ckptPath sp e = ckptPath sp e1) :
    e = e1 := by
  unfold ckptPath at h
  have hd := congrArg String.data h
  simp only [String.data_append, List.append_assoc] at hd
  have h1 := List.append_cancel_left hd
  have h2 := List.append_cancel_left h1
  have h3 := List.append_cancel_right h2
  exact pyStr_injective (String.ext h3)

/-! ## Structure of the epoch loop -/

theorem runBatches_ok (c : TrainCfg) (e : ℕ) (l : List ℕ)
    (h : ∀ b ∈ l, c.batch e b = Except.ok ()) :
    runBatches c e l = (l.map (Ev.batchRun e), none) := by
  induction l with
  | nil => rfl
  | cons b t ih =>
    simp only [runBatches, h b (List.mem_cons_self b t),
      ih (fun x hx => h x (List.mem_cons_of_mem b hx)), List.map_cons]

theorem runBatches_err (c : TrainCfg) (e : ℕ) (er : PyErr) :
    ∀ l1 : List ℕ, ∀ b0 : ℕ, ∀ l2 : List ℕ,
      (∀ b ∈ l1, c.batch e b = Except.ok ()) → c.batch e b0 = Except.error er →
      runBatches c e (l1 ++ b0 :: l2)
        = (l1.map (Ev.batchRun e) ++ [Ev.batchRun e b0], some er) := by
  intro l1
  induction l1 with
  | nil =>
    intro b0 l2 _ hb0
    simp only [List.nil_append, runBatches, hb0, List.map_nil]
  | cons b t ih =>
    intro b0 l2 h1 hb0
    simp only [List.cons_append, runBatches, h1 b (List.mem_cons_self b t), List.append_eq]
    rw [ih b0 l2 (fun x hx => h1 x (List.mem_cons_of_mem b hx)) hb0]
    simp

theorem range_split (n k : ℕ) (h : n < k) :
    List.range k = List.range n ++ n :: List.range' (n + 1) (k - n - 1) := by
  have h2 : k - n = (k - n - 1) + 1 := by omega
  rw [List.range_eq_range', List.range_eq_range']
  conv_lhs => rw [show k = (k - n) + n from by omega, ← List.range'_append_1 0 n (k - n)]
  rw [Nat.zero_add, h2, List.range'_succ]
  simp

theorem runEpoch_ok (c : TrainCfg) (s : RunSt) (e : ℕ)
    (h : ∀ b, b < c.B → c.batch e b = Except.ok ()) :
    runEpoch c s e =
      ({ lastEpoch := s.lastEpoch + 1
         writes := s.writes ++ [(ckptPath c.save_path e, ckptOf c e)]
         events := s.events ++ epochEvents c e }, none) := by
  have hb : runBatches c e (List.range c.B) = ((List.range c.B).map (Ev.batchRun e), none) :=
    runBatches_ok c e _ (fun b hmem => h b (List.mem_range.mp hmem))
  simp only [runEpoch, hb, epochEvents, List.append_assoc]

theorem runEpoch_err (c : TrainCfg) (s : RunSt) (e b0 : ℕ) (er : PyErr)
    (hB : b0 < c.B) (hok : ∀ b, b < b0 → c.batch e b = Except.ok ())
    (herr : c.batch e b0 = Except.error er) :
    runEpoch c s e =
      ({ s with events := s.events ++
          ((List.range b0).map (Ev.batchRun e) ++ [Ev.batchRun e b0]) }, some er) := by
  have hb := runBatches_err c e er (List.range b0) b0 (List.range' (b0 + 1) (c.B - b0 - 1))
    (fun b hmem => hok b (List.mem_range.mp hmem)) herr
  simp only [runEpoch, range_split b0 c.B hB, hb]

theorem runEpochs_ok (c : TrainCfg) (es : List ℕ) :
    ∀ s : RunSt, (∀ e ∈ es, ∀ b, b < c.B → c.batch e b = Except.ok ()) →
    runEpochs c es s =
      ({ lastEpoch := s.lastEpoch + es.length
         writes := s.writes ++ es.map (fun e => (ckptPath c.save_path e, ckptOf c e))
         events := s.events ++ (es.map (epochEvents c)).flatten }, none) := by
  induction es with
  | nil =>
    intro s _
    simp [runEpochs]
  | cons e t ih =>
    intro s h
    have he := runEpoch_ok c s e (h e (List.mem_cons_self e t))
    simp only [runEpochs, he]
    rw [ih _ (fun e2 he2 b hb => h e2 (List.mem_cons_of_mem e he2) b hb)]
    simp only [Prod.mk.injEq, RunSt.mk.injEq, List.length_cons, List.map_cons,
      List.flatten_cons]
    refine ⟨⟨?_, ?_, ?_⟩, trivial⟩
    · push_cast
      ring
    · simp
    · simp [List.append_assoc]

theorem runEpochs_append (c : TrainCfg) (l1 l2 : List ℕ) :
    ∀ s, runEpochs c (l1 ++ l2) s =
      match runEpochs c l1 s with
      | (s1, some er) => (s1, some er)
      | (s1, none) => runEpochs c l2 s1 := by
  induction l1 with
  | nil => intro s; rfl
  | cons e t ih =>
    intro s
    simp only [List.cons_append, runEpochs]
    rcases hre : runEpoch c s e with ⟨s1, op⟩
    cases op with
    | none =>
      dsimp only
      exact ih s1
    | some er =>
      dsimp only

theorem runBatches_events (c : TrainCfg) (e : ℕ) :
    ∀ l : List ℕ, ∀ ev ∈ (runBatches c e l).1, ∃ b, ev = Ev.batchRun e b := by
  intro l
  induction l with
  | nil =>
    intro ev hev
    simp [runBatches] at hev
  | cons b t ih =>
    intro ev hev
    cases hb : c.batch e b with
    | error er =>
      simp only [runBatches, hb] at hev
      simp only [List.mem_singleton] at hev
      exact ⟨b, hev⟩
    | ok u =>
      simp only [runBatches, hb] at hev
      rcases List.mem_cons.mp hev with h | h
      · exact ⟨b, h⟩
      · exact ih ev h

theorem filter_cursor_runBatches (c : TrainCfg) (e : ℕ) (l : List ℕ) :
    ((runBatches c e l).1).filter isCursorSet = [] := by
  rw [List.filter_eq_nil_iff]
  intro ev hev
  rcases runBatches_events c e l ev hev with ⟨b, rfl⟩
  simp [isCursorSet]

theorem filter_cursor_runEpoch (c : TrainCfg) (s : RunSt) (e : ℕ) :
    ((runEpoch c s e).1).events.filter isCursorSet = s.events.filter isCursorSet := by
  have hb := filter_cursor_runBatches c e (List.range c.B)
  simp only [runEpoch]
  rcases hr : runBatches c e (List.range c.B) with ⟨evs, op⟩
  rw [hr] at hb
  cases op with
  | some er =>
    dsimp only
    simp [List.filter_append, hb]
  | none =>
    dsimp only
    simp [List.filter_append, hb, isCursorSet]

theorem filter_cursor_runEpochs (c : TrainCfg) (es : List ℕ) :
    ∀ s, (((runEpochs c es s).1).events).filter isCursorSet
      = s.events.filter isCursorSet := by
  induction es with
  | nil => intro s; rfl
  | cons e t ih =>
    intro s
    have he := filter_cursor_runEpoch c s e
    simp only [runEpochs]
    rcases hre : runEpoch c s e with ⟨s1, op⟩
    rw [hre] at he
    cases op with
    | some er =>
      dsimp only
      exact he
    | none =>
      dsimp only
      rw [ih s1, he]

/-- C8: the scheduler cursor `last_epoch` is assigned exactly once, to
`start_epoch - 1 = -1`, before the epoch loop (the only `cursorSet` event
of any run is the initial one); an exception-free epoch contributes
exactly its batch iterations followed by one `scheduler.step()` (the batch
loop itself emits only `batchRun` events), the step advancing `last_epoch`
by exactly 1; hence the first `step()` lands on `start_epoch = 0`. -/
theorem schedulerDiscipline (c : TrainCfg) (e : ℕ) (s : RunSt) :
    initRun.lastEpoch = 0 - 1 ∧
    initRun.events = [Ev.cursorSet (0 - 1)] ∧
    (train c).1.events.filter isCursorSet = [Ev.cursorSet (0 - 1)] ∧
    (∀ ev ∈ (runBatches c e (List.range c.B)).1, ∃ b, ev = Ev.batchRun e b) ∧
    ((∀ b, b < c.B → c.batch e b = Except.ok ()) →
      runEpoch c s e =
        ({ lastEpoch := s.lastEpoch + 1
           writes := s.writes ++ [(ckptPath c.save_path e, ckptOf c e)]
           events := s.events ++ epochEvents c e }, none)) ∧
    ((∀ b, b < c.B → c.batch 0 b = Except.ok ()) →
      ((runEpoch c initRun 0).1).lastEpoch = 0) := by
  refine ⟨rfl, rfl, ?_, runBatches_events c e (List.range c.B),
    fun h => runEpoch_ok c s e h, fun h => ?_⟩
  · rw [train, filter_cursor_runEpochs]
    rfl
  · rw [runEpoch_ok c initRun 0 h]
    norm_num [initRun]

/-- Witness for C8 on the exception-free two-epoch run `cfgSched`. -/
theorem schedulerDisciplineWitness :
    (train cfgSched).1.events.filter isCursorSet = [Ev.cursorSet (0 - 1)] ∧
    ((runEpoch cfgSched initRun 0).1).lastEpoch = 0 := by
  obtain ⟨_, _, h3, _, _, h6⟩ := schedulerDiscipline cfgSched 0 initRun
  exact ⟨h3, h6 (fun b _ => rfl)⟩

/-- C7: if the model forward pass or the loss adapter raises on batch `b0`
of epoch `e0` (all earlier batches succeeding), the exception value
propagates unchanged out of `train` and the run aborts with checkpoints
written only for the epochs before `e0` — none for `e0` itself; the loop
performs no per-batch catch, retry, or skip. -/
theorem adapterErrorAborts (c : TrainCfg) (e0 b0 : ℕ) (er : PyErr)
    (hE : e0 < c.total_epochs) (hB : b0 < c.B)
    (hprev : ∀ e, e < e0 → ∀ b, b < c.B → c.batch e b = Except.ok ())
    (hok : ∀ b, b < b0 → c.batch e0 b = Except.ok ())
    (herr : c.batch e0 b0 = Except.error er) :
    (train c).2 = some er ∧
    (train c).1.writes
      = (List.range e0).map (fun e => (ckptPath c.save_path e, ckptOf c e)) ∧
    ∀ w ∈ (train c).1.writes, w.2.epoch < e0 := by
  have h1 := runEpochs_ok c (List.range e0) initRun
    (fun e he => hprev e (List.mem_range.mp he))
  have htr : train c =
      ({ lastEpoch := initRun.lastEpoch + (List.range e0).length
         writes := initRun.writes ++
           (List.range e0).map (fun e => (ckptPath c.save_path e, ckptOf c e))
         events := (initRun.events ++ ((List.range e0).map (epochEvents c)).flatten) ++
           ((List.range b0).map (Ev.batchRun e0) ++ [Ev.batchRun e0 b0]) }, some er) := by
    rw [train, range_split e0 c.total_epochs hE, runEpochs_append, h1]
    dsimp only
    simp only [runEpochs]
    rw [runEpoch_err c _ e0 b0 er hB hok herr]
  rw [htr]
  refine ⟨rfl, by simp [initRun], ?_⟩
  intro w hw
  simp only [initRun, List.nil_append] at hw
  rcases List.mem_map.mp hw with ⟨e2, he2, rfl⟩
  simpa [ckptOf] using List.mem_range.mp he2

/-- Witness for C7: a run whose loss adapter raises on batch 3 of epoch 0
aborts with that exact error before any checkpoint is written. -/
theorem adapterErrorAbortsWitness :
    (train cfgAbort).2 = some (PyErr.adapterError "loss") ∧
    (train cfgAbort).1.writes = [] := by
  obtain ⟨h1, h2, _⟩ := adapterErrorAborts cfgAbort 0 3 (PyErr.adapterError "loss")
    (by norm_num [cfgAbort]) (by norm_num [cfgAbort])
    (fun e he => absurd he (Nat.not_lt_zero e))
    (fun b hb => by interval_cases b <;> rfl) rfl
  exact ⟨h1, by simpa using h2⟩

/-- C6: an exception-free run writes exactly one checkpoint per completed
epoch, at `{save_path}/epoch_{epoch}.pt` — paths of distinct epochs never
collide — containing the epoch index and model state; the optimizer state
is present for every epoch except the last (`epoch + 1 = total_epochs`),
where it is absent; with `total_epochs = 1` the run produces exactly one
checkpoint, with optimizer state absent. -/
theorem checkpointLifecycle (c : TrainCfg) (e e1 : ℕ)
    (hok : ∀ e2, e2 < c.total_epochs → ∀ b, b < c.B → c.batch e2 b = Except.ok ()) :
    (train c).2 = none ∧
    (train c).1.writes
      = (List.range c.total_epochs).map (fun e2 => (ckptPath c.save_path e2, ckptOf c e2)) ∧
    (train c).1.writes.length = c.total_epochs ∧
    (e ≠ e1 → ckptPath c.save_path e ≠ ckptPath c.save_path e1) ∧
    ((ckptOf c e).optimizer = none ↔ e + 1 = c.total_epochs) ∧
    (c.total_epochs = 1 →
      (train c).1.writes = [(ckptPath c.save_path 0, ⟨0, c.modelSt 0, none⟩)]) := by
  have h1 := runEpochs_ok c (List.range c.total_epochs) initRun
    (fun e2 he2 => hok e2 (List.mem_range.mp he2))
  have htr : train c =
      ({ lastEpoch := initRun.lastEpoch + (List.range c.total_epochs).length
         writes := initRun.writes ++ (List.range c.total_epochs).map
             (fun e2 => (ckptPath c.save_path e2, ckptOf c e2))
         events := initRun.events ++
           ((List.range c.total_epochs).map (epochEvents c)).flatten }, none) := by
    rw [train, h1]
  have hw : (train c).1.writes
      = (List.range c.total_epochs).map (fun e2 => (ckptPath c.save_path e2, ckptOf c e2)) := by
    rw [htr]
    simp [initRun]
  refine ⟨by rw [htr], hw, by rw [hw]; simp, fun hne hp => hne (ckptPath_injOn _ hp), ?_, ?_⟩
  · unfold ckptOf
    split_ifs with hlast
    · exact ⟨fun _ => hlast, fun _ => rfl⟩
    · exact ⟨fun hcontra => absurd hcontra (by simp), fun hcontra => absurd hcontra hlast⟩
  · intro hE1
    rw [hw, hE1]
    simp [List.range_succ, ckptOf, hE1]

/-- Witness for C6 on the one-epoch run `cfgCkpt`. -/
theorem checkpointLifecycleWitness :
    (train cfgCkpt).2 = none ∧
    (train cfgCkpt).1.writes = [(ckptPath "output" 0, ⟨0, 7, none⟩)] ∧
    ckptPath cfgCkpt.save_path 0 ≠ ckptPath cfgCkpt.save_path 1 := by
  obtain ⟨h1, _, _, h4, _, h6⟩ := checkpointLifecycle cfgCkpt 0 1 (fun _ _ _ _ => rfl)
  exact ⟨h1, by simpa using h6 rfl, h4 (by norm_num)⟩
